import Mathlib

set_option maxRecDepth 4000

/-!
Verification of the audio synchronization engine of `WaveformSync.tsx` /
`page.tsx` (audiovsl).  The numeric code is embedded shallowly over `ℚ`
(JS doubles modelled as exact rationals); `NaN` values arising from the
JS division `0/0` are modelled explicitly as `Option.none`.  JS stable
`Array.prototype.sort` is modelled by `List.insertionSort`, which computes
the same list for any comparator induced by a total preorder.
-/

/-- JS `x.toFixed(2)` (read back as a number): round to two decimals.
`round` is round-half-up; every use in the verified code is away from ties
or tie-convention independent. -/
def toFixed2 (q : ℚ) : ℚ := (round (q * 100) : ℤ) / 100

/-- JS `x.toFixed(1)` (read back as a number): round to one decimal. -/
def toFixed1 (q : ℚ) : ℚ := (round (q * 10) : ℤ) / 10

/-- A correlation candidate as produced inside `findEnhancedCorrelation`:
an `{offset, correlation}` pair tagged with the producing method string. -/
structure Candidate where
  offset : ℚ
  correlation : ℚ
  method : String
deriving DecidableEq, Repr

/-- `methodWeights[result.method] || 0.1` from `analyzeSyncPoints`
(lines 713-722): mfcc 0.5, onset 0.3, basic-correlation 0.2, default 0.1. -/
def methodWeight (m : String) : ℚ :=
  if m = "mfcc" then 1/2
  else if m = "onset" then 3/10
  else if m = "basic-correlation" then 1/5
  else 1/10

/-- The weighted-score annotation step of `analyzeSyncPoints`:
`weightedScore = result.correlation * (methodWeights[result.method] || 0.1)`. -/
def weightedList (cands : List Candidate) : List (Candidate × ℚ) :=
  cands.map (fun c => (c, c.correlation * methodWeight c.method))

/-- `weightedResults.sort((a, b) => b.weightedScore - a.weightedScore)`:
stable sort, descending by weighted score. -/
def sortedWeighted (cands : List Candidate) : List (Candidate × ℚ) :=
  (weightedList cands).insertionSort (fun a b => b.2 ≤ a.2)

/-- `sortedResults.slice(0, 3).map(result => result.offset)`: the primary
suggestion set of `analyzeSyncPoints`. -/
def primarySuggestions (cands : List Candidate) : List ℚ :=
  ((sortedWeighted cands).take 3).map (fun p => p.1.offset)

/-- The variance step: `suggestions.push(bestMatch + 0.05)` and
`suggestions.push(bestMatch - 0.05)` when `suggestions[0]` is defined. -/
def withVariants (s : List ℚ) : List ℚ :=
  match s.head? with
  | some best => s ++ [best + 1/20, best - 1/20]
  | none => s

/-- `if (!suggestions.includes(0)) suggestions.push(0)`. -/
def withZero (s : List ℚ) : List ℚ :=
  if (0 : ℚ) ∈ s then s else s ++ [0]

/-- `Array.from(new Set(xs))`: JS `Set` keeps the first occurrence of each
value in insertion order.  `seen` accumulates already-emitted values. -/
def dedupGo (seen : List ℚ) : List ℚ → List ℚ
  | [] => []
  | a :: l => if a ∈ seen then dedupGo seen l else a :: dedupGo (a :: seen) l

/-- `Array.from(new Set(suggestions))`. -/
def dedupFirst (l : List ℚ) : List ℚ := dedupGo [] l

/-- The tail of `analyzeSyncPoints` (lines 734-749): variance around the best
match, the zero suggestion, `Set` dedup, range filter to `[-5, 5]` and the
stable ascending sort by absolute value. -/
def finalSuggestions (cands : List Candidate) : List ℚ :=
  ((dedupFirst (withZero (withVariants (primarySuggestions cands)))).filter
      (fun o => decide (-5 ≤ o ∧ o ≤ 5))).insertionSort
    (fun a b => |a| ≤ |b|)

theorem mem_dedupGo (x : ℚ) : ∀ (l seen : List ℚ),
    x ∈ dedupGo seen l ↔ x ∈ l ∧ x ∉ seen := by
  intro l
  induction l with
  | nil => intro seen; simp [dedupGo]
  | cons a l ih =>
    intro seen
    by_cases h : a ∈ seen
    · rw [dedupGo, if_pos h, ih]
      constructor
      · rintro ⟨hl, hs⟩
        exact ⟨List.mem_cons_of_mem _ hl, hs⟩
      · rintro ⟨hl, hs⟩
        rcases List.mem_cons.1 hl with rfl | hl
        · exact absurd h hs
        · exact ⟨hl, hs⟩
    · rw [dedupGo, if_neg h]
      constructor
      · intro hx
        rcases List.mem_cons.1 hx with rfl | hx
        · exact ⟨List.mem_cons_self _ _, h⟩
        · have := (ih (a :: seen)).1 hx
          refine ⟨List.mem_cons_of_mem _ this.1, fun hs => this.2 (List.mem_cons_of_mem _ hs)⟩
      · rintro ⟨hl, hs⟩
        rcases List.mem_cons.1 hl with rfl | hl
        · exact List.mem_cons_self _ _
        · by_cases hxa : x = a
          · subst hxa; exact List.mem_cons_self _ _
          · exact List.mem_cons_of_mem _ ((ih (a :: seen)).2
              ⟨hl, fun hm => by
                rcases List.mem_cons.1 hm with h1 | h1
                · exact hxa h1
                · exact hs h1⟩)

theorem nodup_dedupGo : ∀ (l seen : List ℚ), (dedupGo seen l).Nodup := by
  intro l
  induction l with
  | nil => intro seen; simp [dedupGo]
  | cons a l ih =>
    intro seen
    by_cases h : a ∈ seen
    · rw [dedupGo, if_pos h]; exact ih seen
    · rw [dedupGo, if_neg h]
      refine List.nodup_cons.2 ⟨fun hmem => ?_, ih _⟩
      exact ((mem_dedupGo a l (a :: seen)).1 hmem).2 (List.mem_cons_self _ _)

theorem nodup_dedupFirst (l : List ℚ) : (dedupFirst l).Nodup :=
  nodup_dedupGo l []

/-- Claim C1 counterexample input: a single mfcc candidate at offset 0.21 s
(a value `toFixed(2)` can produce, e.g. from the onset or mfcc methods). -/
def exC1 : List Candidate := [⟨21/100, 1, "mfcc"⟩]

/-- Claim C1 (amended): every offset produced by the suggestion aggregation
lies in [-5, 5], and the suggestion list is duplicate-free under exact
equality (the `Set` dedup of the code).  The original claim's "rounded to
one decimal" and "no duplicates after rounding to 0.1 s" parts fail, see
the counterexample. -/
theorem C1_suggestions_range_nodup (cands : List Candidate) :
    (∀ o ∈ finalSuggestions cands, -5 ≤ o ∧ o ≤ 5) ∧
    (finalSuggestions cands).Nodup := by
  constructor
  · intro o ho
    have h1 : o ∈ (dedupFirst (withZero (withVariants (primarySuggestions cands)))).filter
        (fun o => decide (-5 ≤ o ∧ o ≤ 5)) := (List.mem_insertionSort _).1 ho
    have h2 := List.of_mem_filter h1
    exact of_decide_eq_true h2
  · have hperm := List.perm_insertionSort (fun a b : ℚ => |a| ≤ |b|)
      ((dedupFirst (withZero (withVariants (primarySuggestions cands)))).filter
        (fun o => decide (-5 ≤ o ∧ o ≤ 5)))
    refine (List.Perm.nodup_iff hperm).2 ?_
    exact (nodup_dedupFirst _).filter _

theorem finalSuggestions_exC1 :
    finalSuggestions exC1 = [0, 4/25, 21/100, 13/50] := by
  norm_num [finalSuggestions, dedupFirst, dedupGo, withZero, withVariants,
    primarySuggestions, sortedWeighted, weightedList, methodWeight, exC1,
    List.insertionSort, List.orderedInsert, List.filter, abs_of_nonneg]

/-- Witness for C1 at a concrete candidate list: 0.21 is a member of the
resulting suggestion list and the theorem's conclusions hold there. -/
theorem C1_suggestions_range_nodup_witness :
    ((21/100 : ℚ) ∈ finalSuggestions exC1) ∧
    (-5 ≤ (21/100 : ℚ) ∧ (21/100 : ℚ) ≤ 5) ∧ (finalSuggestions exC1).Nodup :=
  ⟨by rw [finalSuggestions_exC1]; norm_num,
    (C1_suggestions_range_nodup exC1).1 (21/100)
      (by rw [finalSuggestions_exC1]; norm_num),
    (C1_suggestions_range_nodup exC1).2⟩

/-- Claim C1 counterexample: on the candidate list `exC1` the suggestion
list contains 0.21 and 0.16 (best − 0.05), which are not one-decimal values,
and 0.21 and 0.16 both round to 0.2 — so the list is neither "rounded to one
decimal place" nor duplicate-free after rounding to 0.1 s. -/
theorem C1_one_decimal_counterexample :
    ¬ ((∀ o ∈ finalSuggestions exC1, (-5 ≤ o ∧ o ≤ 5) ∧ toFixed1 o = o) ∧
       (finalSuggestions exC1).Pairwise (fun a b => toFixed1 a ≠ toFixed1 b)) := by
  rintro ⟨h1, -⟩
  have hmem : (21/100 : ℚ) ∈ finalSuggestions exC1 := by
    rw [finalSuggestions_exC1]; norm_num
  have h := (h1 (21/100) hmem).2
  have hval : toFixed1 (21/100) = 1/5 := by
    unfold toFixed1; norm_num [round_eq]
  rw [hval] at h
  norm_num at h

/-- Claim C6 counterexample input: two methods agree on offset 1 with full
confidence, plus two basic-correlation candidates at offsets 2 and 3. -/
def exC6 : List Candidate :=
  [⟨1, 1, "mfcc"⟩, ⟨1, 1, "onset"⟩, ⟨2, 1, "basic-correlation"⟩,
   ⟨3, 9/10, "basic-correlation"⟩]

/-- Modelled from the spec words for comparison with the code: "take the
top 3 distinct offsets" of the descending weighted order. -/
def specTop3Distinct (cands : List Candidate) : List ℚ :=
  (dedupFirst ((sortedWeighted cands).map (fun p => p.1.offset))).take 3

/-- Claim C6 (amended): each candidate's weighted score is its confidence
times the fixed per-method weight (mfcc 0.5, onset 0.3, basic-correlation
0.2, any other method 0.1); the candidates are stably sorted descending by
weighted score (the sorted list is a permutation of the weighted list, with
every earlier entry's score ≥ every later one's); the primary suggestion
set consists of the offsets of the first 3 entries of that order — which
need not be distinct (the original claim's "top 3 distinct offsets" fails,
see the counterexample). -/
theorem C6_weighted_ranking (cands : List Candidate) :
    methodWeight "mfcc" = 1/2 ∧ methodWeight "onset" = 3/10 ∧
    methodWeight "basic-correlation" = 1/5 ∧
    (∀ m : String, m ≠ "mfcc" → m ≠ "onset" → m ≠ "basic-correlation" →
      methodWeight m = 1/10) ∧
    (∀ w ∈ weightedList cands, w.2 = w.1.correlation * methodWeight w.1.method) ∧
    List.Pairwise (fun a b : Candidate × ℚ => b.2 ≤ a.2) (sortedWeighted cands) ∧
    (sortedWeighted cands).Perm (weightedList cands) ∧
    primarySuggestions cands = ((sortedWeighted cands).take 3).map (fun p => p.1.offset) := by
  refine ⟨by simp [methodWeight], by simp [methodWeight],
    by simp [methodWeight], ?_, ?_, ?_, ?_, rfl⟩
  · intro m h1 h2 h3
    simp [methodWeight, h1, h2, h3]
  · intro w hw
    rcases List.mem_map.1 hw with ⟨c, -, rfl⟩
    rfl
  · haveI ht : IsTotal (Candidate × ℚ) (fun a b => b.2 ≤ a.2) :=
      ⟨fun a b => le_total b.2 a.2⟩
    haveI htr : IsTrans (Candidate × ℚ) (fun a b => b.2 ≤ a.2) :=
      ⟨fun _ _ _ h1 h2 => le_trans h2 h1⟩
    exact List.sorted_insertionSort _ _
  · exact List.perm_insertionSort _ _

/-- Witness for C6: the default weight applies to an unknown method name,
and the ranking conclusions hold on the concrete list `exC6`. -/
theorem C6_weighted_ranking_witness :
    methodWeight "dtw" = 1/10 ∧
    List.Pairwise (fun a b : Candidate × ℚ => b.2 ≤ a.2) (sortedWeighted exC6) ∧
    primarySuggestions exC6 = ((sortedWeighted exC6).take 3).map (fun p => p.1.offset) :=
  ⟨(C6_weighted_ranking exC6).2.2.2.1 "dtw" (by simp) (by simp) (by simp),
   (C6_weighted_ranking exC6).2.2.2.2.2.1,
   (C6_weighted_ranking exC6).2.2.2.2.2.2.2⟩

/-- Claim C6 counterexample: on `exC6` the code's primary suggestion set is
the offsets of the top 3 entries, `[1, 1, 2]` — not the "top 3 distinct
offsets" `[1, 2, 3]` stated by the claim. -/
theorem C6_top3_distinct_counterexample :
    primarySuggestions exC6 = [1, 1, 2] ∧ specTop3Distinct exC6 = [1, 2, 3] ∧
    primarySuggestions exC6 ≠ specTop3Distinct exC6 := by
  have h1 : primarySuggestions exC6 = [1, 1, 2] := by
    simp [primarySuggestions, sortedWeighted, weightedList,
      methodWeight, exC6, List.insertionSort, List.orderedInsert]
    norm_num [List.orderedInsert, List.take, List.map]
  have h2 : specTop3Distinct exC6 = [1, 2, 3] := by
    simp [specTop3Distinct, sortedWeighted, weightedList,
      methodWeight, exC6, dedupFirst, List.insertionSort, List.orderedInsert]
    norm_num [List.orderedInsert, List.take, List.map, dedupGo]
  refine ⟨h1, h2, ?_⟩
  rw [h1, h2]
  simp

/-- The visualization-waveform step of `analyzeAudioData` (lines 344-363):
`blockSize = floor(length/150)`; for each of 150 blocks the mean of
`Math.abs(rawData[blockStart + j] || 0)` over the block; then division by
`Math.max(...filteredData, 0.01)`.  When the input is shorter than 150
samples, `blockSize` is 0 and the JS division `0/0` makes every element
`NaN`; the `NaN` elements are modelled as `none`. -/
def jsWaveform (raw : List ℚ) : List (Option ℚ) :=
  let bs := raw.length / 150
  if bs = 0 then List.replicate 150 none
  else
    let filtered := (List.range 150).map (fun i =>
      (∑ j ∈ Finset.range bs, |raw.getD (bs * i + j) 0|) / (bs : ℚ))
    let maxValue := filtered.foldr max (1/100)
    filtered.map (fun v => some (v / maxValue))

theorem le_foldr_max (l : List ℚ) (b : ℚ) :
    (∀ x ∈ l, x ≤ l.foldr max b) ∧ b ≤ l.foldr max b := by
  induction l with
  | nil => simp
  | cons a l ih =>
    refine ⟨?_, le_trans ih.2 (le_max_right _ _)⟩
    intro x hx
    rcases List.mem_cons.1 hx with rfl | hx
    · exact le_max_left _ _
    · exact le_trans (ih.1 x hx) (le_max_right _ _)

/-- Claim C4 (amended): for every raw sample sequence of length at least 150
(so that `blockSize ≥ 1`), the visualization waveform has exactly 150
entries and every entry is a number in [0, 1].  For shorter non-empty
inputs every entry is `NaN` (see the counterexample). -/
theorem C4_waveform_length_range (raw : List ℚ) (h : 150 ≤ raw.length) :
    (jsWaveform raw).length = 150 ∧
    ∀ v ∈ jsWaveform raw, ∃ q : ℚ, v = some q ∧ 0 ≤ q ∧ q ≤ 1 := by
  have hbs : raw.length / 150 ≠ 0 := by
    have : 1 ≤ raw.length / 150 := (Nat.one_le_div_iff (by norm_num)).2 h
    omega
  rw [jsWaveform]
  simp only [hbs, if_false]
  constructor
  · simp
  · intro v hv
    rcases List.mem_map.1 hv with ⟨x, hx, rfl⟩
    set m := ((List.range 150).map (fun i =>
      (∑ j ∈ Finset.range (raw.length / 150), |raw.getD (raw.length / 150 * i + j) 0|) /
        ((raw.length / 150 : ℕ) : ℚ))).foldr max (1/100) with hm
    have hxm : x ≤ m := (le_foldr_max _ _).1 x hx
    have hmpos : (0 : ℚ) < m := lt_of_lt_of_le (by norm_num) (le_foldr_max _ _).2
    have hx0 : 0 ≤ x := by
      rcases List.mem_map.1 hx with ⟨i, -, rfl⟩
      exact div_nonneg (Finset.sum_nonneg fun j _ => abs_nonneg _) (by positivity)
    exact ⟨x / m, rfl, div_nonneg hx0 (le_of_lt hmpos), (div_le_one hmpos).2 hxm⟩

/-- Witness for C4: the all-ones sequence of length 150. -/
theorem C4_waveform_length_range_witness :
    150 ≤ (List.replicate 150 (1:ℚ)).length ∧
    ((jsWaveform (List.replicate 150 (1:ℚ))).length = 150 ∧
     ∀ v ∈ jsWaveform (List.replicate 150 (1:ℚ)),
       ∃ q : ℚ, v = some q ∧ 0 ≤ q ∧ q ≤ 1) :=
  ⟨by simp, C4_waveform_length_range (List.replicate 150 (1:ℚ)) (by simp)⟩

/-- Claim C4 counterexample: on the non-empty input `[1]` (shorter than 150
samples) `blockSize = 0`, every block average is the JS `0/0 = NaN`, and no
entry of the waveform is a number in [0, 1]. -/
theorem C4_short_input_counterexample :
    ¬ ((jsWaveform [(1:ℚ)]).length = 150 ∧
       ∀ v ∈ jsWaveform [(1:ℚ)], ∃ q : ℚ, v = some q ∧ 0 ≤ q ∧ q ≤ 1) := by
  rintro ⟨-, h⟩
  have heq : jsWaveform [(1:ℚ)] = List.replicate 150 none := by
    simp [jsWaveform]
  have hnone : (none : Option ℚ) ∈ jsWaveform [(1:ℚ)] := by
    rw [heq]; simp [List.mem_replicate]
  obtain ⟨q, hq, -⟩ := h none hnone
  exact Option.noConfusion hq

/-- The result record of `analyzeAudioData`: the decoded channel data and
the visualization waveform.  (The Meyda `features` value is produced by an
external library call whose failure is caught independently and is not
needed by any claim.) -/
structure AnalysisResult where
  rawData : List ℚ
  waveform : List (Option ℚ)
deriving DecidableEq

/-- The deterministic synthetic placeholder of `analyzeAudioData`
(lines 390-401): `Array(150) ... Math.sin(i * 0.1) * 0.3 + 0.5` and
`Float32Array(1000) ... Math.sin(i * 0.01)`.  `JS Math.sin` is an external
numeric routine, abstracted as the function argument `sinFn`. -/
def placeholderResult (sinFn : ℚ → ℚ) : AnalysisResult where
  rawData := (List.range 1000).map (fun i : ℕ => sinFn ((i : ℚ) * (1/100)))
  waveform := (List.range 150).map
    (fun i : ℕ => some (sinFn ((i : ℚ) * (1/10)) * (3/10) + 1/2))

/-- One decode attempt of `analyzeAudioData` (lines 315-378).  The
environment `env` gives the outcome of the k-th fetch/decode: `none` for any
of the thrown errors (fetch failure, empty buffer, decode failure), `some
raw` for the decoded first channel.  The code throws on `rawData.length ===
0`, folded into the failure case; on success it returns the raw data with
the visualization waveform. -/
def attemptOnce (env : ℕ → Option (List ℚ)) (k : ℕ) : Option AnalysisResult :=
  match env k with
  | none => none
  | some raw => if raw = [] then none else some ⟨raw, jsWaveform raw⟩

/-- The retry loop of `attemptAnalysis`: `remaining` is `maxRetries -
retryCount` (initially 2), `k` the index of the current attempt.  On
failure with retries remaining, recurse on attempt `k + 1`; with none
remaining, return the placeholder. -/
def attemptWith (sinFn : ℚ → ℚ) (env : ℕ → Option (List ℚ)) :
    ℕ → ℕ → AnalysisResult
  | 0, k =>
    match attemptOnce env k with
    | some r => r
    | none => placeholderResult sinFn
  | n + 1, k =>
    match attemptOnce env k with
    | some r => r
    | none => attemptWith sinFn env n (k + 1)

/-- `analyzeAudioData` (lines 310-406): `maxRetries = 2`, first attempt at
`retryCount = 0`.  A total function: the JS version never throws. -/
def analyzeAudioData (sinFn : ℚ → ℚ) (env : ℕ → Option (List ℚ)) :
    AnalysisResult :=
  attemptWith sinFn env 2 0

theorem analyzeAudioData_eq (sinFn : ℚ → ℚ) (env : ℕ → Option (List ℚ)) :
    analyzeAudioData sinFn env =
      match attemptOnce env 0 with
      | some r => r
      | none =>
        match attemptOnce env 1 with
        | some r => r
        | none =>
          match attemptOnce env 2 with
          | some r => r
          | none => placeholderResult sinFn := rfl

theorem attemptOnce_of_some {env : ℕ → Option (List ℚ)} {k : ℕ}
    {raw : List ℚ} (h : env k = some raw) (hne : raw ≠ []) :
    attemptOnce env k = some ⟨raw, jsWaveform raw⟩ := by
  unfold attemptOnce
  rw [h]
  simp [hne]

/-- Claim C7: `analyzeAudioData` retries at most 2 additional times (it
never consults the environment beyond attempts 0, 1, 2); when all three
attempts fail it returns the fixed sinusoidal placeholder (150-element
waveform, 1000-sample raw buffer) — the same value on every invocation
since the function is pure; and when an attempt succeeds it returns the
actually decoded data of the first succeeding attempt. -/
theorem C7_retry_fallback (sinFn : ℚ → ℚ) (env env' : ℕ → Option (List ℚ)) :
    (attemptOnce env 0 = none → attemptOnce env 1 = none →
      attemptOnce env 2 = none →
      analyzeAudioData sinFn env = placeholderResult sinFn) ∧
    (placeholderResult sinFn).waveform.length = 150 ∧
    (placeholderResult sinFn).rawData.length = 1000 ∧
    (env 0 = env' 0 → env 1 = env' 1 → env 2 = env' 2 →
      analyzeAudioData sinFn env = analyzeAudioData sinFn env') ∧
    (∀ raw : List ℚ, env 0 = some raw → raw ≠ [] →
      analyzeAudioData sinFn env = ⟨raw, jsWaveform raw⟩) ∧
    (∀ raw : List ℚ, attemptOnce env 0 = none → env 1 = some raw → raw ≠ [] →
      analyzeAudioData sinFn env = ⟨raw, jsWaveform raw⟩) ∧
    (∀ raw : List ℚ, attemptOnce env 0 = none → attemptOnce env 1 = none →
      env 2 = some raw → raw ≠ [] →
      analyzeAudioData sinFn env = ⟨raw, jsWaveform raw⟩) := by
  have hwf : (placeholderResult sinFn).waveform = (List.range 150).map
      (fun i : ℕ => some (sinFn ((i : ℚ) * (1/10)) * (3/10) + 1/2)) := rfl
  have hrd : (placeholderResult sinFn).rawData = (List.range 1000).map
      (fun i : ℕ => sinFn ((i : ℚ) * (1/100))) := rfl
  refine ⟨?_,
    by rw [hwf, List.length_map, List.length_range],
    by rw [hrd, List.length_map, List.length_range],
    ?_, ?_, ?_, ?_⟩
  · intro h0 h1 h2
    rw [analyzeAudioData_eq, h0, h1, h2]
  · intro h0 h1 h2
    have e : ∀ k, env k = env' k → attemptOnce env k = attemptOnce env' k := by
      intro k hk
      unfold attemptOnce
      rw [hk]
    rw [analyzeAudioData_eq, analyzeAudioData_eq, e 0 h0, e 1 h1, e 2 h2]
  · intro raw h0 hne
    rw [analyzeAudioData_eq, attemptOnce_of_some h0 hne]
  · intro raw h0 h1 hne
    rw [analyzeAudioData_eq, h0, attemptOnce_of_some h1 hne]
  · intro raw h0 h1 h2 hne
    rw [analyzeAudioData_eq, h0, h1, attemptOnce_of_some h2 hne]

/-- Witness for C7: with an environment whose three attempts all fail, the
result is the placeholder; with an environment succeeding at attempt 0, the
decoded data is returned. -/
theorem C7_retry_fallback_witness :
    analyzeAudioData id (fun _ => none) = placeholderResult id ∧
    analyzeAudioData id (fun _ => some [1, 2]) = ⟨[1, 2], jsWaveform [1, 2]⟩ :=
  ⟨(C7_retry_fallback id (fun _ => none) (fun _ => none)).1 rfl rfl rfl,
   (C7_retry_fallback id (fun _ => some [1, 2]) (fun _ => some [1, 2])).2.2.2.2.1
     [1, 2] rfl (by simp)⟩

/-- An `{offset, correlation}` result pair as produced by `findCorrelation`,
`compareMFCCs` and `matchOnsets` (before the method tag is attached). -/
structure CorrEntry where
  offset : ℚ
  correlation : ℚ
deriving DecidableEq, Repr

/-- Monotonicity of `round`, hence `toFixed(2)` keeps offsets inside
[-5, 5]. -/
theorem abs_toFixed2_le {d : ℚ} (h : |d| ≤ 5) : |toFixed2 d| ≤ 5 := by
  rw [abs_le] at h ⊢
  have hmono : ∀ x y : ℚ, x ≤ y → round x ≤ round y := fun x y hxy => by
    rw [round_eq, round_eq]
    exact Int.floor_le_floor (by linarith)
  have h1 : round (d * 100) ≤ 500 := by
    have := hmono (d * 100) ((500 : ℤ) : ℚ) (by push_cast; linarith [h.2])
    rwa [round_intCast] at this
  have h2 : (-500 : ℤ) ≤ round (d * 100) := by
    have := hmono ((-500 : ℤ) : ℚ) (d * 100) (by push_cast; linarith [h.1])
    rwa [round_intCast] at this
  unfold toFixed2
  constructor
  · rw [le_div_iff₀ (by norm_num : (0:ℚ) < 100)]
    calc (-5 : ℚ) * 100 = ((-500 : ℤ) : ℚ) := by norm_num
    _ ≤ _ := by exact_mod_cast h2
  · rw [div_le_iff₀ (by norm_num : (0:ℚ) < 100)]
    calc ((round (d * 100) : ℤ) : ℚ) ≤ ((500 : ℤ) : ℚ) := by exact_mod_cast h1
    _ = 5 * 100 := by norm_num

/-- The pattern-similarity test of `matchOnsets` (lines 638-642): both
inter-onset intervals of the consecutive triples at `i` and `j` differ by
less than 0.1 s. -/
def patternCond (vO aO : List ℚ) (i j : ℕ) : Prop :=
  |(vO.getD (i+1) 0 - vO.getD i 0) - (aO.getD (j+1) 0 - aO.getD j 0)| < 1/10 ∧
  |(vO.getD (i+2) 0 - vO.getD (i+1) 0) - (aO.getD (j+2) 0 - aO.getD (j+1) 0)| < 1/10

instance (vO aO : List ℚ) (i j : ℕ) : Decidable (patternCond vO aO i j) := by
  unfold patternCond
  infer_instance

/-- The double loop of `matchOnsets` (lines 626-656): for every triple pair
`(i, j)` with a pattern match and `|offset| ≤ 5`, push the candidate with
offset `toFixed(2)(videoOnsets[i] - audioOnsets[j])` and confidence
`0.7 + 0.3 * patternSimilarity` (similarity is 1 on a match). -/
def onsetPatternCandidates (vO aO : List ℚ) : List CorrEntry :=
  (List.range (vO.length - 2)).flatMap (fun i =>
    (List.range (aO.length - 2)).filterMap (fun j =>
      if patternCond vO aO i j then
        (if |vO.getD i 0 - aO.getD j 0| ≤ 5 then
          some ⟨toFixed2 (vO.getD i 0 - aO.getD j 0), 7/10 + 3/10 * 1⟩
        else none)
      else none))

/-- `matchOnsets` (lines 617-671).  Empty onset lists return `[]` (the JS
loops run zero iterations and the fallback guard requires both lists
non-empty); when no candidate was pushed, fall back to aligning the first
onsets with confidence 0.5, subject to the same `|offset| ≤ 5` check.
(The JS fallback condition `results.length === 0 && videoOnsets.length > 0
&& audioOnsets.length > 0` is reached only after the non-emptiness early
return, so the two length conjuncts are always true there.) -/
def matchOnsets (vO aO : List ℚ) : List CorrEntry :=
  if vO = [] ∨ aO = [] then []
  else
    let results := onsetPatternCandidates vO aO
    if results = [] then
      (if |vO.getD 0 0 - aO.getD 0 0| ≤ 5 then
        [⟨toFixed2 (vO.getD 0 0 - aO.getD 0 0), 1/2⟩]
      else [])
    else results

theorem mem_onsetPatternCandidates {vO aO : List ℚ} {c : CorrEntry} :
    c ∈ onsetPatternCandidates vO aO ↔
      ∃ i j : ℕ, i < vO.length - 2 ∧ j < aO.length - 2 ∧
        patternCond vO aO i j ∧ |vO.getD i 0 - aO.getD j 0| ≤ 5 ∧
        c = ⟨toFixed2 (vO.getD i 0 - aO.getD j 0), 7/10 + 3/10 * 1⟩ := by
  unfold onsetPatternCandidates
  rw [List.mem_flatMap]
  constructor
  · rintro ⟨i, hi, hc⟩
    rcases List.mem_filterMap.1 hc with ⟨j, hj, hcj⟩
    refine ⟨i, j, List.mem_range.1 hi, List.mem_range.1 hj, ?_⟩
    by_cases hp : patternCond vO aO i j
    · rw [if_pos hp] at hcj
      by_cases hr : |vO.getD i 0 - aO.getD j 0| ≤ 5
      · rw [if_pos hr] at hcj
        exact ⟨hp, hr, (Option.some_inj.1 hcj).symm⟩
      · rw [if_neg hr] at hcj
        exact absurd hcj (Option.noConfusion)
    · rw [if_neg hp] at hcj
      exact absurd hcj (Option.noConfusion)
  · rintro ⟨i, j, hi, hj, hp, hr, rfl⟩
    refine ⟨i, List.mem_range.2 hi, List.mem_filterMap.2 ⟨j, List.mem_range.2 hj, ?_⟩⟩
    rw [if_pos hp, if_pos hr]

/-- Claim C8: (1) for every pair of triples whose two inter-onset intervals
each differ by less than 0.1 s and whose offset is in range, a candidate
with offset `toFixed(2)(onsetA[i] - onsetB[j])` and confidence exactly
`0.7 + 0.3·1 = 1` is in the result; (2) every candidate offset lies in
[-5, 5]; (3) if no triple pair matches at all and both lists are non-empty,
the result is the single first-onset-alignment fallback with confidence
0.5, subject to the same range check. -/
theorem C8_onset_matching (vO aO : List ℚ) :
    (∀ i j : ℕ, i + 2 < vO.length → j + 2 < aO.length →
      patternCond vO aO i j → |vO.getD i 0 - aO.getD j 0| ≤ 5 →
      (⟨toFixed2 (vO.getD i 0 - aO.getD j 0), 1⟩ : CorrEntry) ∈ matchOnsets vO aO) ∧
    (∀ c ∈ matchOnsets vO aO, -5 ≤ c.offset ∧ c.offset ≤ 5) ∧
    ((∀ i j : ℕ, i < vO.length - 2 → j < aO.length - 2 →
        ¬ patternCond vO aO i j) → vO ≠ [] → aO ≠ [] →
      matchOnsets vO aO =
        (if |vO.getD 0 0 - aO.getD 0 0| ≤ 5 then
          [⟨toFixed2 (vO.getD 0 0 - aO.getD 0 0), 1/2⟩]
        else [])) := by
  refine ⟨?_, ?_, ?_⟩
  · intro i j hi hj hp hr
    have hvne : vO ≠ [] := by
      intro h
      rw [h] at hi
      simp at hi
    have hane : aO ≠ [] := by
      intro h
      rw [h] at hj
      simp at hj
    have hc : (⟨toFixed2 (vO.getD i 0 - aO.getD j 0), 1⟩ : CorrEntry) ∈
        onsetPatternCandidates vO aO := by
      rw [mem_onsetPatternCandidates]
      exact ⟨i, j, by omega, by omega, hp, hr, by norm_num⟩
    unfold matchOnsets
    rw [if_neg (by simp [hvne, hane])]
    have hne : onsetPatternCandidates vO aO ≠ [] := by
      intro h
      rw [h] at hc
      exact List.not_mem_nil _ hc
    simpa [hne] using hc
  · intro c hc
    unfold matchOnsets at hc
    by_cases hempty : vO = [] ∨ aO = []
    · rw [if_pos hempty] at hc
      exact absurd hc (List.not_mem_nil _)
    · rw [if_neg hempty] at hc
      simp only at hc
      by_cases hres : onsetPatternCandidates vO aO = []
      · rw [if_pos hres] at hc
        by_cases hr : |vO.getD 0 0 - aO.getD 0 0| ≤ 5
        · rw [if_pos hr] at hc
          rcases List.mem_singleton.1 hc with rfl
          have := abs_toFixed2_le hr
          rw [abs_le] at this
          exact this
        · rw [if_neg hr] at hc
          exact absurd hc (List.not_mem_nil _)
      · rw [if_neg hres] at hc
        rcases mem_onsetPatternCandidates.1 hc with ⟨i, j, -, -, -, hr, rfl⟩
        have := abs_toFixed2_le hr
        rw [abs_le] at this
        exact this
  · intro hnone hvne hane
    have hres : onsetPatternCandidates vO aO = [] := by
      rcases h : onsetPatternCandidates vO aO with _ | ⟨c, l⟩
      · rfl
      · have : c ∈ onsetPatternCandidates vO aO := by
          rw [h]
          exact List.mem_cons_self _ _
        rcases mem_onsetPatternCandidates.1 this with ⟨i, j, hi, hj, hp, -, -⟩
        exact absurd hp (hnone i j hi hj)
    unfold matchOnsets
    rw [if_neg (by simp [hvne, hane])]
    simp [hres]

/-- Witness for C8: `[0, 1, 2]` against itself has a matching triple pair
at `(0, 0)` producing the in-range candidate `⟨0, 1⟩`, whose offset obeys
the range bound; and `[1, 3, 8]` against `[0, 1, 2]` has no matching triple
pair, so the result is the first-onset fallback `⟨1, 0.5⟩`. -/
theorem C8_onset_matching_witness :
    (⟨toFixed2 ((([0, 1, 2] : List ℚ).getD 0 0) - (([0, 1, 2] : List ℚ).getD 0 0)), 1⟩ : CorrEntry) ∈
      matchOnsets [0, 1, 2] [0, 1, 2] ∧
    matchOnsets [1, 3, 8] [0, 1, 2] =
      (if |(([1, 3, 8] : List ℚ).getD 0 0) - (([0, 1, 2] : List ℚ).getD 0 0)| ≤ 5 then
        [⟨toFixed2 ((([1, 3, 8] : List ℚ).getD 0 0) - (([0, 1, 2] : List ℚ).getD 0 0)), 1/2⟩]
      else []) :=
  ⟨(C8_onset_matching [0, 1, 2] [0, 1, 2]).1 0 0 (by simp) (by simp)
      (by unfold patternCond; norm_num [List.getD])
      (by norm_num [List.getD]),
   (C8_onset_matching [1, 3, 8] [0, 1, 2]).2.2
      (by
        intro i j hi hj
        have hi0 : i = 0 := by simp at hi; omega
        have hj0 : j = 0 := by simp at hj; omega
        subst hi0
        subst hj0
        unfold patternCond
        norm_num [List.getD])
      (by simp) (by simp)⟩

/-- Playback mode of `togglePlayback`: `'both' | 'video' | 'audio'`. -/
inductive Mode
  | both
  | video
  | audio
deriving DecidableEq, Repr

/-- The two audio elements: the video's audio track and the uploaded one. -/
inductive Src
  | video
  | audio
deriving DecidableEq, Repr

/-- The play actions issued by the start branch of `togglePlayback`
(lines 232-297), in program order, as `(source, delay in seconds)` pairs:
delay 0 for a synchronous `play()`, a positive delay for a
`setTimeout(..., delay * 1000)` deferred play.  Note that in `both` mode the
video source is always played synchronously first (lines 247-254); for
`offsetSeconds <= 0` a second, deferred play of the video is scheduled
(lines 278-289); and in `audio` mode a positive offset defers the audio
start (lines 257-269). -/
def togglePlaybackStart (mode : Mode) (offset : ℚ) : List (Src × ℚ) :=
  (if mode = Mode.both ∨ mode = Mode.video then [(Src.video, 0)] else []) ++
  (if mode = Mode.both ∨ mode = Mode.audio then
    (if 0 < offset then [(Src.audio, offset)]
     else
       [(Src.audio, 0)] ++
         (if mode = Mode.both then [(Src.video, |offset|)] else []))
   else [])

/-- Smallest element of a list of delays, `none` when empty. -/
def minDelay : List ℚ → Option ℚ
  | [] => none
  | d :: ds =>
    match minDelay ds with
    | none => some d
    | some m => some (min d m)

/-- The delay after which source `s` first starts playing under the given
action list (`none` if it is never started). -/
def firstDelay (acts : List (Src × ℚ)) (s : Src) : Option ℚ :=
  minDelay (acts.filterMap (fun a => if a.1 = s then some a.2 else none))

/-- Modelled from the claim's words, for comparison: if `offset ≥ 0` the
primary starts immediately and the secondary after `offset`; if `offset <
0` the secondary starts immediately and the primary after `|offset|`;
single-source modes start only their source, with no delay. -/
def claimFirstDelay (mode : Mode) (offset : ℚ) (s : Src) : Option ℚ :=
  match mode with
  | Mode.both =>
    if 0 ≤ offset then
      (if s = Src.video then some 0 else some offset)
    else
      (if s = Src.audio then some 0 else some (-offset))
  | Mode.video => if s = Src.video then some 0 else none
  | Mode.audio => if s = Src.audio then some 0 else none

/-- Claim C3 (amended): in `both` mode the primary (video) source always
starts immediately and the secondary (audio) first starts after
`max(offset, 0)`; when `offset ≤ 0` an additional, redundant deferred play
of the primary is scheduled (3 actions instead of 2).  In `video` mode only
the video starts, immediately.  In `audio` mode only the audio starts, but
first after `max(offset, 0)` — i.e. a positive offset delays it.  The
original claim fails for `both` mode with negative offsets (primary is not
delayed) and for `audio` mode with positive offsets (audio is delayed). -/
theorem C3_start_scheduling (offset : ℚ) :
    firstDelay (togglePlaybackStart Mode.both offset) Src.video = some 0 ∧
    firstDelay (togglePlaybackStart Mode.both offset) Src.audio = some (max offset 0) ∧
    firstDelay (togglePlaybackStart Mode.video offset) Src.video = some 0 ∧
    firstDelay (togglePlaybackStart Mode.video offset) Src.audio = none ∧
    firstDelay (togglePlaybackStart Mode.audio offset) Src.audio = some (max offset 0) ∧
    firstDelay (togglePlaybackStart Mode.audio offset) Src.video = none ∧
    (togglePlaybackStart Mode.both offset).length = (if 0 < offset then 2 else 3) := by
  have hsv : Src.video ≠ Src.audio := fun hc => Src.noConfusion hc
  have hsa : Src.audio ≠ Src.video := fun hc => Src.noConfusion hc
  by_cases h : 0 < offset
  · simp [togglePlaybackStart, firstDelay, minDelay, h, max_eq_left h.le, hsv, hsa]
  · have habs : |offset| = -offset := abs_of_nonpos (not_lt.1 h)
    have hmin : min (0 : ℚ) (-offset) = 0 :=
      min_eq_left (by linarith [not_lt.1 h])
    simp [togglePlaybackStart, firstDelay, minDelay, h, habs, hmin, hsv, hsa,
      max_eq_right (not_lt.1 h)]

/-- Claim C3 counterexample: at `(both, offset = -1)` the code starts the
primary immediately (first delay 0) while the claim schedules it after 1 s;
at `(audio, offset = 2)` the code defers the audio by 2 s while the claim
starts it immediately. -/
theorem C3_schedule_counterexample :
    firstDelay (togglePlaybackStart Mode.both (-1)) Src.video = some 0 ∧
    claimFirstDelay Mode.both (-1) Src.video = some 1 ∧
    firstDelay (togglePlaybackStart Mode.audio 2) Src.audio = some 2 ∧
    claimFirstDelay Mode.audio 2 Src.audio = some 0 ∧
    (some (0 : ℚ) ≠ some (1 : ℚ)) ∧ (some (2 : ℚ) ≠ some (0 : ℚ)) := by
  norm_num [togglePlaybackStart, firstDelay, minDelay, claimFirstDelay]
  all_goals
    intro hc
    exact Src.noConfusion hc

/-- The playback-relevant component state: `isPlaying` and
`playbackProgress` (React state), whether each audio element is playing,
and the pending `setTimeout` deferred plays (target, delay in ms) in
creation order.  The component never stores the `setTimeout` handles
(`playbackTimerRef` is cleared in cleanup paths but never assigned). -/
structure PBState where
  isPlaying : Bool
  progress : ℚ
  videoPlaying : Bool
  audioPlaying : Bool
  timers : List (Src × ℚ)
deriving DecidableEq, Repr

def initPBState : PBState := ⟨false, 0, false, false, []⟩

/-- The start branch of `togglePlayback` (lines 232-297) as a state
transition: reset and pause both sources, play/schedule per mode and
offset, set `isPlaying := true` and `progress := 0`. -/
def startPlayback (mode : Mode) (offset : ℚ) (st : PBState) : PBState :=
  let st1 : PBState := { st with videoPlaying := false, audioPlaying := false }
  let st2 := if mode = Mode.both ∨ mode = Mode.video then
      { st1 with videoPlaying := true } else st1
  let st3 :=
    if mode = Mode.both ∨ mode = Mode.audio then
      (if 0 < offset then
        { st2 with timers := st2.timers ++ [(Src.audio, offset * 1000)] }
      else
        (let st' := { st2 with audioPlaying := true }
         if mode = Mode.both then
           { st' with timers := st'.timers ++ [(Src.video, |offset| * 1000)] }
         else st'))
    else st2
  { st3 with isPlaying := true, progress := 0 }

/-- The `useEffect([offsetSeconds])` cancellation (lines 973-985): when
playing, pause both sources, clear `isPlaying`, reset progress.  The
pending `setTimeout` timers are NOT touched — the code holds no handle to
them. -/
def offsetChangeEffect (st : PBState) : PBState :=
  if st.isPlaying then
    { st with
      videoPlaying := false
      audioPlaying := false
      isPlaying := false
      progress := 0 }
  else st

/-- Expiry of the earliest pending `setTimeout`: its callback calls
`play()` on its target (the ref null-checks pass — the elements exist). -/
def fireTimer (st : PBState) : PBState :=
  match st.timers with
  | [] => st
  | (Src.video, _) :: ts => { st with videoPlaying := true, timers := ts }
  | (Src.audio, _) :: ts => { st with audioPlaying := true, timers := ts }

/-- Claim C2 evidence (code bug): starting `both`-mode playback with offset
1.5 s and then mutating the offset does pause both sources, clear
`isPlaying` and reset progress — but the deferred-start timer for the audio
source (1500 ms) is still pending, and when it fires the audio source plays
while `isPlaying` is false, contradicting the claim that the timer is
cleared and never fires. -/
theorem C2_deferred_timer_not_cleared :
    (offsetChangeEffect (startPlayback Mode.both (3/2) initPBState)).isPlaying = false ∧
    (offsetChangeEffect (startPlayback Mode.both (3/2) initPBState)).videoPlaying = false ∧
    (offsetChangeEffect (startPlayback Mode.both (3/2) initPBState)).audioPlaying = false ∧
    (offsetChangeEffect (startPlayback Mode.both (3/2) initPBState)).progress = 0 ∧
    (offsetChangeEffect (startPlayback Mode.both (3/2) initPBState)).timers =
      [(Src.audio, 1500)] ∧
    (fireTimer (offsetChangeEffect (startPlayback Mode.both (3/2) initPBState))).audioPlaying
      = true ∧
    (fireTimer (offsetChangeEffect (startPlayback Mode.both (3/2) initPBState))).isPlaying
      = false := by
  have hstart : startPlayback Mode.both (3/2) initPBState =
      ⟨true, 0, true, false, [(Src.audio, 1500)]⟩ := by
    norm_num [startPlayback, initPBState]
  have heff : offsetChangeEffect (startPlayback Mode.both (3/2) initPBState) =
      ⟨false, 0, false, false, [(Src.audio, 1500)]⟩ := by
    rw [hstart]
    norm_num [offsetChangeEffect]
  rw [heff]
  exact ⟨rfl, rfl, rfl, rfl, rfl, rfl, rfl⟩

/-- `handleMouseMove` (lines 935-952): drag offset is clamped into [-5, 5]
and rounded with `toFixed(1)`.  (`deltaX / containerWidth` with a zero
width is JS `Infinity`, still clamped to 5; in the `ℚ` model division by
zero gives 0 — clamped either way, so the range conclusion is unaffected.) -/
def handleMouseMoveOffset (dragStartOffset deltaX containerWidth : ℚ) : ℚ :=
  toFixed1 (max (-5) (min 5 (dragStartOffset + (deltaX / containerWidth) * 10)))

/-- `handleKeyDown` in `page.tsx` (lines 1125-1142): Shift+ArrowLeft /
Shift+ArrowRight store `syncOptions.offset ± 0.1` with no clamping. -/
def arrowLeftOffset (cur : ℚ) : ℚ := cur - 1/10

def arrowRightOffset (cur : ℚ) : ℚ := cur + 1/10

theorem abs_toFixed1_le {d : ℚ} (h : |d| ≤ 5) : |toFixed1 d| ≤ 5 := by
  rw [abs_le] at h ⊢
  have hmono : ∀ x y : ℚ, x ≤ y → round x ≤ round y := fun x y hxy => by
    rw [round_eq, round_eq]
    exact Int.floor_le_floor (by linarith)
  have h1 : round (d * 10) ≤ 50 := by
    have := hmono (d * 10) ((50 : ℤ) : ℚ) (by push_cast; linarith [h.2])
    rwa [round_intCast] at this
  have h2 : (-50 : ℤ) ≤ round (d * 10) := by
    have := hmono ((-50 : ℤ) : ℚ) (d * 10) (by push_cast; linarith [h.1])
    rwa [round_intCast] at this
  unfold toFixed1
  constructor
  · rw [le_div_iff₀ (by norm_num : (0:ℚ) < 10)]
    calc (-5 : ℚ) * 10 = ((-50 : ℤ) : ℚ) := by norm_num
    _ ≤ _ := by exact_mod_cast h2
  · rw [div_le_iff₀ (by norm_num : (0:ℚ) < 10)]
    calc ((round (d * 10) : ℤ) : ℚ) ≤ ((50 : ℤ) : ℚ) := by exact_mod_cast h1
    _ = 5 * 10 := by norm_num

/-- Claim C9 evidence (code bug): the drag interface does clamp every
requested offset into [-5, 5], but the keyboard shortcut path stores
`offset ± 0.1` unclamped: at offset 5, Shift+ArrowRight stores 5.1 and at
-5, Shift+ArrowLeft stores -5.1 — outside [-5, 5], contradicting the
"out-of-range values must be clamped" requirement. -/
theorem C9_keyboard_no_clamp :
    (∀ v dx w : ℚ, -5 ≤ handleMouseMoveOffset v dx w ∧
      handleMouseMoveOffset v dx w ≤ 5) ∧
    arrowRightOffset 5 = 51/10 ∧ ¬ (arrowRightOffset 5 ≤ 5) ∧
    arrowLeftOffset (-5) = -(51/10) ∧ ¬ (-5 ≤ arrowLeftOffset (-5)) := by
  refine ⟨?_, by norm_num [arrowRightOffset], by norm_num [arrowRightOffset],
    by norm_num [arrowLeftOffset], by norm_num [arrowLeftOffset]⟩
  intro v dx w
  have hcl : |max (-5) (min 5 (v + (dx / w) * 10))| ≤ 5 := by
    rw [abs_le]
    constructor
    · exact le_max_left _ _
    · exact max_le (by norm_num) (min_le_left _ _)
  have := abs_toFixed1_le hcl
  rw [abs_le] at this
  exact this

/-- A raw PCM buffer (`Float32Array`): a length and an index function.
Indices outside `[0, len)` are never read by the embedded code. -/
structure Signal where
  len : ℕ
  val : ℕ → ℚ

/-- The overlap index set of the inner loop of `findCorrelation`
(lines 790-796): `i` ranges over the first signal, and the partner index
`j = i + offsetSamples` must satisfy `0 ≤ j < s2.length`. -/
def overlapSet (n1 n2 : ℕ) (k : ℤ) : Finset ℕ :=
  (Finset.range n1).filter (fun i => 0 ≤ (i : ℤ) + k ∧ (i : ℤ) + k < n2)

/-- The inner-loop accumulation of `findCorrelation`: the sum of pointwise
products over the overlap (`correlation += s1[i] * s2[j]`). -/
def corrSum (f g : ℕ → ℚ) (n1 n2 : ℕ) (k : ℤ) : ℚ :=
  ∑ i ∈ overlapSet n1 n2 k, f i * g ((i : ℤ) + k).toNat

/-- One result entry of `findCorrelation` at offset `offsetSamples = k`:
signals windowed to `maxSamples = 44100 * 10 = 441000`; the count is the
number of overlapping indices; `correlation = count > 0 ? sum / count : 0`;
`offset = parseFloat((offsetSamples / 44100).toFixed(2))`. -/
def corrAt (s1 s2 : Signal) (k : ℤ) : ℚ :=
  if 0 < (overlapSet (min s1.len 441000) (min s2.len 441000) k).card then
    corrSum s1.val s2.val (min s1.len 441000) (min s2.len 441000) k /
      (overlapSet (min s1.len 441000) (min s2.len 441000) k).card
  else 0

def entryAt (s1 s2 : Signal) (k : ℤ) : CorrEntry :=
  ⟨toFixed2 ((k : ℚ) / 44100), corrAt s1 s2 k⟩

theorem entryAt_correlation (s1 s2 : Signal) (k : ℤ) :
    (entryAt s1 s2 k).correlation = corrAt s1 s2 k := rfl

/-- `findCorrelation` (lines 768-811): `sampleRate` is hard-coded to 44100,
`maxOffsetSamples = 5 * 44100 = 220500`, `stepSize = floor(44100 * 0.1) =
4410`; the loop `for (offsetSamples = -220500; offsetSamples <= 220500;
offsetSamples += 4410)` visits exactly the 101 offsets
`-220500 + 4410·t`, `t = 0..100`. -/
def findCorrelation (s1 s2 : Signal) : List CorrEntry :=
  ((List.range 101).map (fun t : ℕ => -220500 + 4410 * (t : ℤ))).map
    (entryAt s1 s2)

theorem mem_findCorrelation {s1 s2 : Signal} {r : CorrEntry} :
    r ∈ findCorrelation s1 s2 ↔
      ∃ t : ℕ, t < 101 ∧ r = entryAt s1 s2 (-220500 + 4410 * (t : ℤ)) := by
  unfold findCorrelation
  rw [List.mem_map]
  constructor
  · rintro ⟨k, hk, rfl⟩
    rcases List.mem_map.1 hk with ⟨t, ht, rfl⟩
    exact ⟨t, List.mem_range.1 ht, rfl⟩
  · rintro ⟨t, ht, rfl⟩
    exact ⟨-220500 + 4410 * (t : ℤ),
      List.mem_map.2 ⟨t, List.mem_range.2 ht, rfl⟩, rfl⟩

theorem entryAt_offset (s1 s2 : Signal) (t : ℕ) :
    (entryAt s1 s2 (-220500 + 4410 * (t : ℤ))).offset = ((t : ℚ) - 50) / 10 := by
  show toFixed2 ((((-220500 + 4410 * (t : ℤ)) : ℤ) : ℚ) / 44100) = ((t : ℚ) - 50) / 10
  unfold toFixed2
  have hq : (((-220500 + 4410 * (t : ℤ)) : ℤ) : ℚ) / 44100 * 100 =
      ((10 * (t : ℤ) - 500 : ℤ) : ℚ) := by
    push_cast
    ring
  rw [hq, round_intCast]
  push_cast
  ring

theorem overlapSet_zero (n : ℕ) : overlapSet n n 0 = Finset.range n := by
  unfold overlapSet
  apply Finset.filter_true_of_mem
  intro i hi
  rw [Finset.mem_range] at hi
  omega

theorem corrSum_zero (f : ℕ → ℚ) (n : ℕ) :
    corrSum f f n n 0 = ∑ i ∈ Finset.range n, f i * f i := by
  unfold corrSum
  rw [overlapSet_zero]
  refine Finset.sum_congr rfl fun i _ => ?_
  have h : (((i : ℤ)) + 0).toNat = i := by omega
  rw [h]

/-- Claim C5 (amended): for every signal correlated with itself, the
UNNORMALIZED correlation sum is maximized at offset 0 (and is
non-negative).  The per-offset confidence of `findCorrelation` divides the
sum by the overlap count, which shrinks with `|offset|`; that normalization
can push the confidence of a nonzero offset strictly above every offset
within one step of 0 — see the counterexample — so the claim's property
fails for the normalized confidence but holds for the raw sum. -/
theorem C5_unnormalized_peak_at_zero (f : ℕ → ℚ) (n : ℕ) (k : ℤ) :
    corrSum f f n n k ≤ corrSum f f n n 0 ∧ 0 ≤ corrSum f f n n 0 := by
  have hzero : corrSum f f n n 0 = ∑ i ∈ Finset.range n, f i * f i :=
    corrSum_zero f n
  have hTnonneg : 0 ≤ ∑ i ∈ Finset.range n, f i * f i :=
    Finset.sum_nonneg fun i _ => mul_self_nonneg _
  refine ⟨?_, hzero ▸ hTnonneg⟩
  set S := overlapSet n n k with hS
  have hmemS : ∀ i ∈ S, i < n ∧ 0 ≤ (i : ℤ) + k ∧ (i : ℤ) + k < n := by
    intro i hi
    rw [hS] at hi
    unfold overlapSet at hi
    rcases Finset.mem_filter.1 hi with ⟨h1, h2, h3⟩
    exact ⟨Finset.mem_range.1 h1, h2, h3⟩
  have hk : corrSum f f n n k = ∑ i ∈ S, f i * f ((i : ℤ) + k).toNat := rfl
  have hstep : ∑ i ∈ S, f i * f ((i : ℤ) + k).toNat ≤
      (∑ i ∈ S, (f i * f i + f (((i : ℤ) + k).toNat) * f (((i : ℤ) + k).toNat))) / 2 := by
    rw [Finset.sum_div]
    exact Finset.sum_le_sum fun i _ => by
      nlinarith [sq_nonneg (f i - f (((i : ℤ) + k).toNat))]
  have hsub1 : ∑ i ∈ S, f i * f i ≤ ∑ i ∈ Finset.range n, f i * f i := by
    apply Finset.sum_le_sum_of_subset_of_nonneg
    · rw [hS]
      unfold overlapSet
      exact Finset.filter_subset _ _
    · intro i _ _
      exact mul_self_nonneg _
  have hinj : ∀ x ∈ S, ∀ y ∈ S,
      ((x : ℤ) + k).toNat = ((y : ℤ) + k).toNat → x = y := by
    intro x hx y hy hxy
    rcases hmemS x hx with ⟨-, hx2, -⟩
    rcases hmemS y hy with ⟨-, hy2, -⟩
    omega
  have himg : ∑ j ∈ S.image (fun i : ℕ => ((i : ℤ) + k).toNat), f j * f j =
      ∑ i ∈ S, f (((i : ℤ) + k).toNat) * f (((i : ℤ) + k).toNat) :=
    Finset.sum_image hinj
  have hsub2 : ∑ i ∈ S, f (((i : ℤ) + k).toNat) * f (((i : ℤ) + k).toNat) ≤
      ∑ i ∈ Finset.range n, f i * f i := by
    rw [← himg]
    apply Finset.sum_le_sum_of_subset_of_nonneg
    · intro j hj
      rcases Finset.mem_image.1 hj with ⟨i, hi, rfl⟩
      rcases hmemS i hi with ⟨-, h2, h3⟩
      rw [Finset.mem_range]
      omega
    · intro i _ _
      exact mul_self_nonneg _
  have hsplit : (∑ i ∈ S, (f i * f i +
      f (((i : ℤ) + k).toNat) * f (((i : ℤ) + k).toNat))) =
      (∑ i ∈ S, f i * f i) +
      ∑ i ∈ S, f (((i : ℤ) + k).toNat) * f (((i : ℤ) + k).toNat) :=
    Finset.sum_add_distrib
  rw [hk, hzero]
  rw [hsplit] at hstep
  linarith [hstep, hsub1, hsub2]

/-- Claim C5 counterexample signal: two unit impulses 8820 samples
(= 2 steps = 0.2 s at the hard-coded 44100 Hz) apart, length 8821. -/
def impulsePair : Signal := ⟨8821, fun i => if i = 0 ∨ i = 8820 then 1 else 0⟩

theorem impulse_min : min impulsePair.len 441000 = 8821 := by
  show min 8821 441000 = 8821
  norm_num

theorem impulse_corrSum_zero :
    corrSum impulsePair.val impulsePair.val 8821 8821 0 = 2 := by
  rw [corrSum_zero]
  have hpt : ∀ i ∈ Finset.range 8821, impulsePair.val i * impulsePair.val i =
      (if i = 0 then (1:ℚ) else 0) + (if i = 8820 then (1:ℚ) else 0) := by
    intro i _
    by_cases h0 : i = 0
    · subst h0
      show (if (0:ℕ) = 0 ∨ (0:ℕ) = 8820 then (1:ℚ) else 0) *
        (if (0:ℕ) = 0 ∨ (0:ℕ) = 8820 then (1:ℚ) else 0) = _
      norm_num
    · by_cases h8 : i = 8820
      · subst h8
        show (if (8820:ℕ) = 0 ∨ (8820:ℕ) = 8820 then (1:ℚ) else 0) *
          (if (8820:ℕ) = 0 ∨ (8820:ℕ) = 8820 then (1:ℚ) else 0) = _
        norm_num
      · show (if i = 0 ∨ i = 8820 then (1:ℚ) else 0) *
          (if i = 0 ∨ i = 8820 then (1:ℚ) else 0) = _
        rw [if_neg (fun hor => Or.elim hor h0 h8), if_neg h0, if_neg h8]
        norm_num
  rw [Finset.sum_congr rfl hpt, Finset.sum_add_distrib,
    Finset.sum_ite_eq' (Finset.range 8821) 0 (fun _ => (1:ℚ)),
    Finset.sum_ite_eq' (Finset.range 8821) 8820 (fun _ => (1:ℚ))]
  rw [if_pos (Finset.mem_range.2 (by norm_num)),
    if_pos (Finset.mem_range.2 (by norm_num))]
  norm_num

theorem impulse_corrAt_zero : corrAt impulsePair impulsePair 0 = 2 / 8821 := by
  unfold corrAt
  rw [impulse_min, overlapSet_zero, Finset.card_range]
  rw [if_pos (by norm_num)]
  rw [impulse_corrSum_zero]
  norm_num

theorem impulse_overlap_8820 : overlapSet 8821 8821 8820 = {0} := by
  unfold overlapSet
  ext i
  simp only [Finset.mem_filter, Finset.mem_range, Finset.mem_singleton]
  omega

theorem impulse_corrAt_8820 : corrAt impulsePair impulsePair 8820 = 1 := by
  unfold corrAt
  rw [impulse_min, impulse_overlap_8820]
  rw [if_pos (by norm_num [Finset.card_singleton])]
  have hsum : corrSum impulsePair.val impulsePair.val 8821 8821 8820 = 1 := by
    unfold corrSum
    rw [impulse_overlap_8820, Finset.sum_singleton]
    have hφ : (((0:ℕ) : ℤ) + 8820).toNat = 8820 := by omega
    rw [hφ]
    show (if (0:ℕ) = 0 ∨ (0:ℕ) = 8820 then (1:ℚ) else 0) *
      (if (8820:ℕ) = 0 ∨ (8820:ℕ) = 8820 then (1:ℚ) else 0) = 1
    norm_num
  rw [hsum]
  norm_num

theorem impulse_corrSum_neg4410 :
    corrSum impulsePair.val impulsePair.val 8821 8821 (-4410) = 0 := by
  unfold corrSum
  apply Finset.sum_eq_zero
  intro i hi
  unfold overlapSet at hi
  rcases Finset.mem_filter.1 hi with ⟨hr, h0, h1⟩
  rw [Finset.mem_range] at hr
  by_cases hv : i = 0 ∨ i = 8820
  · rcases hv with rfl | rfl
    · exact absurd h0 (by norm_num)
    · have hφ : (((8820:ℕ) : ℤ) + (-4410)).toNat = 4410 := by omega
      rw [hφ]
      show (if (8820:ℕ) = 0 ∨ (8820:ℕ) = 8820 then (1:ℚ) else 0) *
        (if (4410:ℕ) = 0 ∨ (4410:ℕ) = 8820 then (1:ℚ) else 0) = 0
      norm_num
  · have hz : impulsePair.val i = 0 := by
      show (if i = 0 ∨ i = 8820 then (1:ℚ) else 0) = 0
      rw [if_neg hv]
    show impulsePair.val i * _ = 0
    rw [hz, zero_mul]

theorem impulse_corrSum_4410 :
    corrSum impulsePair.val impulsePair.val 8821 8821 4410 = 0 := by
  unfold corrSum
  apply Finset.sum_eq_zero
  intro i hi
  unfold overlapSet at hi
  rcases Finset.mem_filter.1 hi with ⟨hr, h0, h1⟩
  rw [Finset.mem_range] at hr
  by_cases hv : i = 0 ∨ i = 8820
  · rcases hv with rfl | rfl
    · have hφ : (((0:ℕ) : ℤ) + 4410).toNat = 4410 := by omega
      rw [hφ]
      show (if (0:ℕ) = 0 ∨ (0:ℕ) = 8820 then (1:ℚ) else 0) *
        (if (4410:ℕ) = 0 ∨ (4410:ℕ) = 8820 then (1:ℚ) else 0) = 0
      norm_num
    · exact absurd h1 (by norm_num)
  · have hz : impulsePair.val i = 0 := by
      show (if i = 0 ∨ i = 8820 then (1:ℚ) else 0) = 0
      rw [if_neg hv]
    show impulsePair.val i * _ = 0
    rw [hz, zero_mul]

theorem impulse_corrAt_neg4410 : corrAt impulsePair impulsePair (-4410) = 0 := by
  unfold corrAt
  rw [impulse_min, impulse_corrSum_neg4410, zero_div, ite_self]

theorem impulse_corrAt_4410 : corrAt impulsePair impulsePair 4410 = 0 := by
  unfold corrAt
  rw [impulse_min, impulse_corrSum_4410, zero_div, ite_self]

/-- Claim C5 counterexample: on the impulse-pair signal correlated with
itself, the scanned offset +0.2 s (8820 samples) has normalized confidence
1, while the offsets within one step of 0 (−0.1, 0, +0.1 s) have
confidences 0, 2/8821 and 0 — so no offset within one step of 0 carries
the maximum confidence of the scan. -/
theorem C5_normalized_counterexample :
    ¬ ∃ r ∈ findCorrelation impulsePair impulsePair,
        |r.offset| ≤ 1/10 ∧
        ∀ r' ∈ findCorrelation impulsePair impulsePair,
          r'.correlation ≤ r.correlation := by
  rintro ⟨r, hr, hoff, hmax⟩
  have h52k : (-220500 + 4410 * ((52:ℕ) : ℤ)) = 8820 := by norm_num
  have h52mem : entryAt impulsePair impulsePair 8820 ∈
      findCorrelation impulsePair impulsePair :=
    mem_findCorrelation.2 ⟨52, by norm_num, by rw [h52k]⟩
  have h1le : 1 ≤ r.correlation := by
    have hm := hmax _ h52mem
    rwa [entryAt_correlation, impulse_corrAt_8820] at hm
  rcases mem_findCorrelation.1 hr with ⟨t, ht, rfl⟩
  rw [entryAt_offset] at hoff
  have ht3 : t = 49 ∨ t = 50 ∨ t = 51 := by
    rw [abs_le] at hoff
    have h1 : (49 : ℚ) ≤ (t : ℚ) := by linarith [hoff.1]
    have h2 : (t : ℚ) ≤ 51 := by linarith [hoff.2]
    have h1' : (49 : ℕ) ≤ t := by exact_mod_cast h1
    have h2' : t ≤ 51 := by exact_mod_cast h2
    omega
  have hsmall : (entryAt impulsePair impulsePair
      (-220500 + 4410 * (t : ℤ))).correlation ≤ 2 / 8821 := by
    rcases ht3 with rfl | rfl | rfl
    · have hk : (-220500 + 4410 * ((49:ℕ) : ℤ)) = -4410 := by norm_num
      rw [hk, entryAt_correlation, impulse_corrAt_neg4410]
      norm_num
    · have hk : (-220500 + 4410 * ((50:ℕ) : ℤ)) = 0 := by norm_num
      rw [hk, entryAt_correlation, impulse_corrAt_zero]
    · have hk : (-220500 + 4410 * ((51:ℕ) : ℤ)) = 4410 := by norm_num
      rw [hk, entryAt_correlation, impulse_corrAt_4410]
      norm_num
  have hcontra : (1 : ℚ) ≤ 2 / 8821 := le_trans h1le hsmall
  norm_num at hcontra

/-- Claim C10: `findCorrelation` takes no sample-rate input at all; its 101
reported offsets are the fixed values `(t − 50)/10` seconds, `t = 0..100`
(offsetSamples / 44100 with the hard-coded 44100, 441000-sample window and
4410-sample step), for every pair of signals.  Consequently, for tracks
whose true rate is `rate`, the reported offset `k / 44100` of sample-lag
`k` equals `(rate / 44100)` times the true time offset `k / rate`. -/
theorem C10_hardcoded_sample_rate (s1 s2 : Signal) :
    (findCorrelation s1 s2).map (fun r => r.offset) =
      (List.range 101).map (fun t : ℕ => ((t : ℚ) - 50) / 10) ∧
    (findCorrelation s1 s2).length = 101 ∧
    (∀ rate : ℚ, rate ≠ 0 → ∀ k : ℤ,
      (k : ℚ) / 44100 = (rate / 44100) * ((k : ℚ) / rate)) := by
  refine ⟨?_, ?_, ?_⟩
  · unfold findCorrelation
    rw [List.map_map, List.map_map]
    apply List.map_congr_left
    intro t _
    show (entryAt s1 s2 (-220500 + 4410 * (t : ℤ))).offset = ((t : ℚ) - 50) / 10
    exact entryAt_offset s1 s2 t
  · unfold findCorrelation
    simp
  · intro rate hrate k
    field_simp
    ring

/-- Witness for C10: the offset list of the zero signal pair is the fixed
101-element list, and the scale identity at rate 22050 Hz and lag 4410. -/
theorem C10_hardcoded_sample_rate_witness :
    ((findCorrelation ⟨0, fun _ => 0⟩ ⟨0, fun _ => 0⟩).map (fun r => r.offset) =
      (List.range 101).map (fun t : ℕ => ((t : ℚ) - 50) / 10)) ∧
    ((22050 : ℚ) ≠ 0) ∧
    (((4410 : ℤ) : ℚ) / 44100 =
      ((22050 : ℚ) / 44100) * (((4410 : ℤ) : ℚ) / 22050)) :=
  ⟨(C10_hardcoded_sample_rate ⟨0, fun _ => 0⟩ ⟨0, fun _ => 0⟩).1, by norm_num,
   (C10_hardcoded_sample_rate ⟨0, fun _ => 0⟩ ⟨0, fun _ => 0⟩).2.2 22050
     (by norm_num) 4410⟩
